import Mathlib

/-
Verification development for the agentv repository: a shallow embedding of
the ingestion/normalization pipeline (source adapters), the canonical model
(pricing, sessions, events) and the storage engine (session upsert, event
insert, faceted search, ingestion batch accounting), with theorems checking
the natural-language specification against the code.

Modelling conventions:
- machine integers (i64) are Int; token counts (usize) are Nat;
- f64 prices are modelled as rationals;
- DateTime<Utc> instants are Int seconds since the Unix epoch at the adapter
  layer; at the storage layer timestamps are kept as their already-rendered
  RFC3339 strings, since the SQL only passes them through or compares them;
- Uuid::new_v4 (process randomness) is not modelled: adapter-level events
  omit the random id, storage-level rows receive caller-provided string ids;
- serde_json::Value is the Json inductive below (numbers restricted to Int,
  which suffices: no embedded code path reads a fractional JSON number);
- RFC3339 string parsing is abstracted as a parameter of type
  String -> Option Int wherever the code calls DateTime::parse_from_rfc3339;
- fallible SQLite statements are modelled by a success oracle on the row
  being inserted, so a call site can be analysed under any failure pattern.
-/

namespace AgentV

/-- Source enum from core/src/models.rs. -/
inductive Source where
  | claude
  | codex
  | opencode
  | crush
deriving DecidableEq, Repr

/-- Display form of Source (lower case, as in the Display impl). -/
def Source.toStr : Source → String
  | .claude => "claude"
  | .codex => "codex"
  | .opencode => "opencode"
  | .crush => "crush"

/-- EventKind enum from core/src/models.rs. -/
inductive EventKind where
  | message
  | toolCall
  | toolResult
  | error
  | system
deriving DecidableEq, Repr

/-- Display form of EventKind. -/
def EventKind.toStr : EventKind → String
  | .message => "message"
  | .toolCall => "tool_call"
  | .toolResult => "tool_result"
  | .error => "error"
  | .system => "system"

/-- Role enum from core/src/models.rs. -/
inductive Role where
  | user
  | assistant
  | system
deriving DecidableEq, Repr

/-- Display form of Role. -/
def Role.toStr : Role → String
  | .user => "user"
  | .assistant => "assistant"
  | .system => "system"

/-- ModelMetadata from core/src/models.rs, with f64 prices modelled as
rationals. -/
structure ModelMetadata where
  model_id : String
  provider : String
  input_price_per_1m : ℚ
  output_price_per_1m : ℚ
  extended_input_price_per_1m : Option ℚ
  extended_output_price_per_1m : Option ℚ
deriving DecidableEq, Repr

/-- ModelMetadata::calculate_cost from core/src/models.rs: the extended
price tier (when present) is selected for both input and output as soon as
input_tokens exceeds 200000, and the cost is tokens over one million times
the applicable per-million price, summed over input and output. -/
def ModelMetadata.calculate_cost (m : ModelMetadata)
    (input_tokens output_tokens : Nat) : ℚ :=
  let input_price :=
    if input_tokens > 200000 then
      m.extended_input_price_per_1m.getD m.input_price_per_1m
    else m.input_price_per_1m
  let output_price :=
    if input_tokens > 200000 then
      m.extended_output_price_per_1m.getD m.output_price_per_1m
    else m.output_price_per_1m
  (input_tokens : ℚ) / 1000000 * input_price
    + (output_tokens : ℚ) / 1000000 * output_price

/-- Minimal model of serde_json::Value (numbers restricted to Int). -/
inductive Json where
  | null
  | bool (b : Bool)
  | num (n : Int)
  | str (s : String)
  | arr (xs : List Json)
  | obj (fields : List (String × Json))

/-- Value::get on an object: lookup of the first binding of the key
(serde_json object keys are unique). -/
def Json.get : Json → String → Option Json
  | .obj fields, key => fields.lookup key
  | _, _ => none

/-- Value::as_str. -/
def Json.asStr : Json → Option String
  | .str s => some s
  | _ => none

/-- Value::as_arr (as_array). -/
def Json.asArr : Json → Option (List Json)
  | .arr xs => some xs
  | _ => none

/-- Convenience: string field of an object, as value.get(k).and_then(as_str). -/
def Json.getStr (v : Json) (k : String) : Option String :=
  (v.get k).bind Json.asStr

mutual
/-- Compact rendering modelling serde_json Value::to_string (string
escaping is not modelled; no claim depends on the rendered text). -/
def Json.render : Json → String
  | .null => "null"
  | .bool true => "true"
  | .bool false => "false"
  | .num n => toString n
  | .str s => "\"" ++ s ++ "\""
  | .arr xs => "[" ++ Json.renderList xs ++ "]"
  | .obj fs => "\x7b" ++ Json.renderObj fs ++ "\x7d"

/-- Comma-joined rendering of an array body. -/
def Json.renderList : List Json → String
  | [] => ""
  | [x] => Json.render x
  | x :: y :: xs => Json.render x ++ "," ++ Json.renderList (y :: xs)

/-- Comma-joined rendering of an object body. -/
def Json.renderObj : List (String × Json) → String
  | [] => ""
  | [(k, v)] => "\"" ++ k ++ "\":" ++ Json.render v
  | (k, v) :: f :: fs =>
      "\"" ++ k ++ "\":" ++ Json.render v ++ "," ++ Json.renderObj (f :: fs)
end

/-- Adapter-level normalized event, mirroring core Event minus the fields
produced by process randomness (id is Uuid::new_v4, session_id starts as
the nil placeholder and is patched once the Session id exists). -/
structure AEvent where
  kind : EventKind
  role : Option Role
  content : Option String
  timestamp : Int
  raw : Json

namespace Claude

/-- Tool call extracted from assistant content (adapters/src/claude.rs). -/
structure ToolCall where
  id : String
  name : String
  args : Json

/-- ClaudeAdapter::extract_user_content: prefer message.content as a string,
fall back to the top-level content string. -/
def extract_user_content (v : Json) : Option String :=
  match (v.get "message").bind fun m => m.getStr "content" with
  | some c => some c
  | none => v.getStr "content"

/-- Loop body of ClaudeAdapter::extract_assistant_content over the content
block array: text blocks accumulate content parts, thinking blocks replace
the thinking slot, tool_use blocks with id and name append a tool call,
anything else is ignored. -/
def foldBlocks :
    List Json → List String × List ToolCall × Option String →
      List String × List ToolCall × Option String
  | [], acc => acc
  | b :: rest, (parts, calls, think) =>
      let acc2 : List String × List ToolCall × Option String :=
        match b.getStr "type" with
        | some t =>
          if t = "text" then
            match b.getStr "text" with
            | some s => (parts ++ [s], calls, think)
            | none => (parts, calls, think)
          else if t = "thinking" then
            match b.getStr "thinking" with
            | some s => (parts, calls, some s)
            | none => (parts, calls, think)
          else if t = "tool_use" then
            match b.getStr "id", b.getStr "name" with
            | some i, some n =>
                (parts, calls ++ [⟨i, n, (b.get "input").getD Json.null⟩], think)
            | _, _ => (parts, calls, think)
          else (parts, calls, think)
        | none => (parts, calls, think)
      foldBlocks rest acc2

/-- ClaudeAdapter::extract_assistant_content: walk message.content when it
is an array, otherwise take message.content as one string part; the content
result is the newline join, None when no part was collected. -/
def extract_assistant_content (v : Json) :
    Option String × List ToolCall × Option String :=
  match v.get "message" with
  | none => (none, [], none)
  | some msg =>
    match (msg.get "content").bind Json.asArr with
    | some blocks =>
        let acc := foldBlocks blocks ([], [], none)
        (if acc.1.isEmpty then none else some (String.intercalate "\n" acc.1),
         acc.2.1, acc.2.2)
    | none =>
        match msg.getStr "content" with
        | some c => (some c, [], none)
        | none => (none, [], none)

/-- ClaudeAdapter::parse_event_line: a line with no string type discriminator
yields no event; otherwise the discriminator selects kind, role and content,
with unknown discriminators mapped to a System event carrying a synthesized
placeholder. rfc abstracts DateTime::parse_from_rfc3339 and now is the
Utc::now() fallback taken when the timestamp is absent or unparseable. -/
def parse_event_line (rfc : String → Option Int) (now : Int) (v : Json) :
    Option AEvent :=
  match v.getStr "type" with
  | none => none
  | some entry_type =>
    let timestamp := ((v.getStr "timestamp").bind rfc).getD now
    let krc : EventKind × Option Role × Option String :=
      if entry_type = "user" then
        (EventKind.message, some Role.user, extract_user_content v)
      else if entry_type = "assistant" then
        (EventKind.message, some Role.assistant, (extract_assistant_content v).1)
      else if entry_type = "system" then
        (EventKind.system, some Role.system, v.getStr "content")
      else if entry_type = "progress" then
        (EventKind.system, none,
          match ((v.get "data").bind fun d =>
              (d.get "message").bind fun m => m.getStr "content") with
          | some c => some c
          | none => (v.get "data").map Json.render)
      else if entry_type = "file-history-snapshot" then
        (EventKind.system, none, (v.get "snapshot").map Json.render)
      else if entry_type = "queue-operation" then
        (EventKind.system, none, v.getStr "content")
      else if entry_type = "error" then
        (EventKind.error, none, v.getStr "message")
      else
        (EventKind.system, none, some ("Unknown type: " ++ entry_type))
    some ⟨krc.1, krc.2.1, krc.2.2, timestamp, v⟩

/-- Timestamp accumulation loop of ClaudeAdapter::parse_session: each line
whose timestamp field parses sets first_timestamp once and last_timestamp
every time; lines without a parseable timestamp leave both untouched. The
list holds the parse result of each retained line in file order. -/
def scanTimestamps :
    Option Int → Option Int → List (Option Int) → Option Int × Option Int
  | first, evLast, [] => (first, evLast)
  | first, evLast, none :: rest => scanTimestamps first evLast rest
  | first, _, some t :: rest =>
      scanTimestamps (if first.isNone then some t else first) (some t) rest

/-- Derivation of (created_at, updated_at) in ClaudeAdapter::parse_session:
created_at is the first parseable timestamp in file order, falling back to
ingestion wall-clock now; updated_at is the last parseable timestamp,
falling back to created_at. -/
def deriveTimes (now : Int) (stamps : List (Option Int)) : Int × Int :=
  let fl := scanTimestamps none none stamps
  let created := fl.1.getD now
  (created, fl.2.getD created)

end Claude

namespace Codex

/-- CodexEvent line wrapper from adapters/src/codex.rs: timestamp string,
type discriminator and payload. -/
structure CodexEvent where
  timestamp : String
  event_type : String
  payload : Json

/-- Rendering of serde_json::to_value(codex_event), used as raw_payload. -/
def CodexEvent.toJson (e : CodexEvent) : Json :=
  Json.obj [("timestamp", .str e.timestamp), ("type", .str e.event_type),
            ("payload", e.payload)]

/-- Content block of a Codex message (serde tagged enum with an other
fallback variant). -/
inductive ContentBlock where
  | inputText (text : String)
  | outputText (text : String)
  | other

/-- Deserialization of one ContentBlock: the tag must be a string, the two
text variants require a string text field (missing or mistyped fields are a
serde error), any other tag is the fallback variant. -/
def contentBlockOfJson (j : Json) : Option ContentBlock :=
  match j.getStr "type" with
  | none => none
  | some t =>
    if t = "input_text" then (j.getStr "text").map ContentBlock.inputText
    else if t = "output_text" then (j.getStr "text").map ContentBlock.outputText
    else some ContentBlock.other

/-- ResponseItem payload from adapters/src/codex.rs: type is required, the
other serde(default) fields decode to None when absent or null. -/
structure ResponseItem where
  item_type : String
  role : Option String
  content : Option (List ContentBlock)
  name : Option String
  arguments : Option String
  call_id : Option String
  output : Option String

/-- Serde decoding of Option String with a default: absent or null is None,
a string is Some, anything else is a deserialization error. -/
def getOptStr (j : Json) (k : String) : Option (Option String) :=
  match j.get k with
  | none => some none
  | some .null => some none
  | some (.str s) => some (some s)
  | some _ => none

/-- Serde decoding of the optional content block list: a single failing
block fails the whole item. -/
def contentOfJson (j : Json) : Option (Option (List ContentBlock)) :=
  match j.get "content" with
  | none => some none
  | some .null => some none
  | some (.arr xs) => (xs.mapM contentBlockOfJson).map some
  | some _ => none

/-- Deserialization of a ResponseItem from the payload value, as performed
by serde_json::from_value inside parse_response_item. -/
def responseItemOfJson (j : Json) : Option ResponseItem := do
  let t ← j.getStr "type"
  let role ← getOptStr j "role"
  let content ← contentOfJson j
  let nm ← getOptStr j "name"
  let args ← getOptStr j "arguments"
  let cid ← getOptStr j "call_id"
  let outp ← getOptStr j "output"
  pure ⟨t, role, content, nm, args, cid, outp⟩

/-- Text extracted from a content block list: input_text and output_text
texts, joined by newlines, fallback variants skipped. -/
def blocksText (blocks : List ContentBlock) : String :=
  String.intercalate "\n" (blocks.filterMap fun b =>
    match b with
    | .inputText t => some t
    | .outputText t => some t
    | .other => none)

/-- CodexAdapter::parse_response_item: a payload that fails to deserialize
yields no event; message, function_call, function_call_output and reasoning
items map to events; every other item type yields no event. -/
def parse_response_item (e : CodexEvent) (timestamp : Int) : Option AEvent :=
  match responseItemOfJson e.payload with
  | none => none
  | some item =>
    if item.item_type = "message" then
      let role :=
        if item.role = some "user" then some Role.user
        else if item.role = some "assistant" then some Role.assistant
        else if item.role = some "system" then some Role.system
        else none
      some ⟨EventKind.message, role, item.content.map blocksText, timestamp,
            e.toJson⟩
    else if item.item_type = "function_call" then
      let nm := item.name.getD "unknown"
      let args := item.arguments.getD "\x7b\x7d"
      some ⟨EventKind.toolCall, some Role.assistant,
            some ("Called " ++ nm ++ " with arguments: " ++ args), timestamp,
            e.toJson⟩
    else if item.item_type = "function_call_output" then
      some ⟨EventKind.toolResult, none, some (item.output.getD ""), timestamp,
            e.toJson⟩
    else if item.item_type = "reasoning" then
      some ⟨EventKind.system, some Role.assistant,
            some "[Reasoning content encrypted by Codex]", timestamp, e.toJson⟩
    else none

/-- EventMessage payload (type required, message serde(default)). -/
structure EventMessage where
  msg_type : String
  message : Option String

/-- Deserialization of an EventMessage from the payload value. -/
def eventMessageOfJson (j : Json) : Option EventMessage := do
  let t ← j.getStr "type"
  let m ← getOptStr j "message"
  pure ⟨t, m⟩

/-- CodexAdapter::parse_event_msg: user_message and agent_reasoning map to
events, token_count and every other message type yield no event. -/
def parse_event_msg (e : CodexEvent) (timestamp : Int) : Option AEvent :=
  match eventMessageOfJson e.payload with
  | none => none
  | some msg =>
    if msg.msg_type = "user_message" then
      some ⟨EventKind.message, some Role.user, msg.message, timestamp, e.toJson⟩
    else if msg.msg_type = "agent_reasoning" then
      some ⟨EventKind.system, some Role.assistant,
            msg.message.map (fun m => "[Thinking] " ++ m), timestamp, e.toJson⟩
    else none

/-- Derivation of (created_at, updated_at) in CodexAdapter::parse_session:
every retained line contributes a timestamp, falling back per line to
ingestion wall-clock now when RFC3339 parsing fails; created_at is the
first line timestamp (or now when the file has no lines), updated_at the
last (or created_at). -/
def deriveTimes (now : Int) (stamps : List (Option Int)) : Int × Int :=
  Claude.deriveTimes now (stamps.map fun o => some (o.getD now))

end Codex

namespace Crush

/-- ContentPart enum of a Crush message (adapters/src/crush.rs), carrying
the fields of its data payload that the adapter reads. -/
inductive ContentPart where
  | text (text : String)
  | thinking (thinking : String)
  | toolUse (id : String) (name : String) (input : Json)
  | toolResult (tool_use_id : String) (content : String) (is_error : Option Bool)
  | image (data : Json)
  | finish (reason : String) (time : Nat)
  | other

/-- Loop body of CrushAdapter::extract_content_from_parts accumulating the
readable content parts and the tool call names. -/
def foldParts : List ContentPart → List String × List String →
    List String × List String
  | [], acc => acc
  | p :: rest, (cs, ts) =>
      let acc2 : List String × List String :=
        match p with
        | .text t => (cs ++ [t], ts)
        | .thinking t => (cs ++ ["[Thinking: " ++ t ++ "]"], ts)
        | .toolUse _ n _ => (cs ++ ["[Tool: " ++ n ++ "]"], ts ++ [n])
        | .toolResult _ c e =>
            (cs ++ [(if e.getD false then "[Error]" else "[Result]") ++ " " ++ c],
             ts)
        | .image _ => (cs ++ ["[Image]"], ts)
        | .finish r _ => (cs ++ ["[Finished: " ++ r ++ "]"], ts)
        | .other => (cs, ts)
      foldParts rest acc2

/-- CrushAdapter::extract_content_from_parts: flatten the parts to readable
text; the event kind is ToolCall when the role is assistant and at least
one tool_use part was seen, otherwise Message. -/
def extract_content_from_parts (parts : List ContentPart) (role : String) :
    EventKind × Option String :=
  let acc := foldParts parts ([], [])
  let kind :=
    if role = "assistant" ∧ acc.2 ≠ [] then EventKind.toolCall
    else EventKind.message
  let content :=
    if acc.1.isEmpty then none else some (String.intercalate "\n" acc.1)
  (kind, content)

/-- Whether a content part is the tool_use variant. -/
def ContentPart.isToolUse : ContentPart → Bool
  | .toolUse _ _ _ => true
  | _ => false

/-- Name carried by a tool_use part, none for every other variant. -/
def ContentPart.toolName : ContentPart → Option String
  | .toolUse _ n _ => some n
  | _ => none

/-- Earliest epoch second representable by a chrono DateTime
(-262144-01-01T00:00:00 UTC). -/
def chronoMinSecs : Int := -8334632937600

/-- Latest epoch second representable by a chrono DateTime
(262143-12-31T23:59:59 UTC). -/
def chronoMaxSecs : Int := 8210298412799

/-- Utc.timestamp_opt(secs, 0).single(): Some exactly when the second count
lands inside the representable chrono range. -/
def chronoTimestampOpt (secs : Int) : Option Int :=
  if chronoMinSecs ≤ secs ∧ secs ≤ chronoMaxSecs then some secs else none

/-- timestamp_to_datetime from adapters/src/crush.rs: values above
1000000000000 are epoch milliseconds and are divided by 1000, anything else
is epoch seconds; an unrepresentable result falls back to Utc::now(),
passed here as now. -/
def timestamp_to_datetime (now : Int) (ts_millis : Int) : Int :=
  let secs := if ts_millis > 1000000000000 then ts_millis / 1000 else ts_millis
  (chronoTimestampOpt secs).getD now

end Crush

namespace Store

/-- Canonical Session as handed to Database::insert_session, with the
marshalled field representations (uuid as string, timestamps as their
RFC3339 renderings, raw_payload as its JSON string). -/
structure Session where
  id : String
  source : Source
  external_id : String
  project : Option String
  title : Option String
  created_at : String
  updated_at : String
  raw_payload : String
deriving DecidableEq, Repr

/-- Stored sessions row: the eight text parameters bound by INSERT_SESSION
(store/src/queries.rs), optional project and title already collapsed to the
empty string by unwrap_or_default in insert_session. -/
structure SessionRow where
  id : String
  source : String
  external_id : String
  project : String
  title : String
  created_at : String
  updated_at : String
  raw_payload : String
deriving DecidableEq, Repr

/-- Parameter marshalling done by Database::insert_session (store/src/db.rs). -/
def sessionToParams (s : Session) : SessionRow :=
  ⟨s.id, s.source.toStr, s.external_id, s.project.getD "", s.title.getD "",
   s.created_at, s.updated_at, s.raw_payload⟩

/-- Canonical Event as handed to Database::insert_event. -/
structure Event where
  id : String
  session_id : String
  kind : EventKind
  role : Option Role
  content : Option String
  timestamp : String
  raw_payload : String
deriving DecidableEq, Repr

/-- Stored events row: the seven text parameters bound by INSERT_EVENT. -/
structure EventRow where
  id : String
  session_id : String
  kind : String
  role : String
  content : String
  timestamp : String
  raw_payload : String
deriving DecidableEq, Repr

/-- Parameter marshalling done by Database::insert_event (store/src/db.rs). -/
def eventToParams (e : Event) : EventRow :=
  ⟨e.id, e.session_id, e.kind.toStr, (e.role.map Role.toStr).getD "",
   e.content.getD "", e.timestamp, e.raw_payload⟩

/-- Whether a sessions row carries the natural key of the given row. -/
def SessionRow.sameKey (r other : SessionRow) : Bool :=
  r.source == other.source && r.external_id == other.external_id

/-- INSERT_SESSION with ON CONFLICT(source, external_id) DO UPDATE
(store/src/queries.rs): a conflicting row keeps its id, created_at and
project and takes the excluded title, updated_at and raw_payload; without a
conflict the new row is appended. -/
def upsertSession (table : List SessionRow) (r : SessionRow) : List SessionRow :=
  if table.any (fun row => row.sameKey r) then
    table.map fun row =>
      if row.sameKey r then
        { row with title := r.title, updated_at := r.updated_at,
                   raw_payload := r.raw_payload }
      else row
  else table ++ [r]

/-- Embedded database state: the sessions and events tables. -/
structure Db where
  sessions : List SessionRow
  events : List EventRow
deriving DecidableEq, Repr

/-- Database::insert_session as a state update on the sessions table. -/
def insert_session (db : Db) (s : Session) : Db :=
  { db with sessions := upsertSession db.sessions (sessionToParams s) }

/-- Database::insert_event: the statement either appends the row or fails
leaving the table unchanged; ok is the success oracle for the INSERT. -/
def insert_event (ok : EventRow → Bool) (db : Db) (e : Event) : Db × Bool :=
  let r := eventToParams e
  if ok r then ({ db with events := db.events ++ [r] }, true) else (db, false)

/-- Event loop of insert_session_with_events: events are inserted one
statement at a time and the first failure aborts the loop, leaving prior
inserts in place. -/
def insertEventsLoop (ok : EventRow → Bool) : Db → List Event → Db × Bool
  | db, [] => (db, true)
  | db, e :: rest =>
      match insert_event ok db e with
      | (db2, true) => insertEventsLoop ok db2 rest
      | (db2, false) => (db2, false)

/-- Database::insert_session_with_events (store/src/db.rs): upsert the
session, then insert every event sequentially with no enclosing
transaction; the Bool is false when some event insert failed, and the Db
component is whatever state the statements left behind. -/
def insert_session_with_events (ok : EventRow → Bool) (db : Db) (s : Session)
    (events : List Event) : Db × Bool :=
  insertEventsLoop ok (insert_session db s) events

/-- WHERE clause of SEARCH_EVENTS_FILTERED (store/src/queries.rs): the FTS
match (abstracted as the predicate matchQ), the join to the owning session
with the source and project facets, and the kind and since facets, each
facet ignored when bound to the empty string sentinel. Relevance ordering
and LIMIT/OFFSET pagination are applied downstream of this filter and are
not modelled. -/
def searchEventsFiltered (matchQ : EventRow → Bool) (db : Db)
    (source project kind since : String) : List EventRow :=
  db.events.filter fun e =>
    matchQ e
    && db.sessions.any (fun s =>
         s.id == e.session_id
         && (source == "" || s.source == source)
         && (project == "" || s.project == project))
    && (kind == "" || e.kind == kind)
    && (since == "" || decide (since ≤ e.timestamp))

/-- SearchFacets (store/src/db.rs), with since already rendered to RFC3339. -/
structure SearchFacets where
  source : Option String
  project : Option String
  kind : Option String
  since : Option String
deriving DecidableEq, Repr

/-- Database::search_events: each unset facet is bound as the empty string
via unwrap_or_default, then SEARCH_EVENTS_FILTERED runs. -/
def search_events (matchQ : EventRow → Bool) (db : Db) (facets : SearchFacets) :
    List EventRow :=
  searchEventsFiltered matchQ db (facets.source.getD "") (facets.project.getD "")
    (facets.kind.getD "") (facets.since.getD "")

end Store

namespace Boundary

/-- Suffix test on the character list, modelling str::ends_with (the code
only tests ASCII suffixes, where byte and character suffixes agree). -/
def endsWithS (s suffx : String) : Bool :=
  List.isSuffixOf suffx.data s.data

/-- Removal of the final n characters, modelling the byte slice
s[..s.len()-n] for the ASCII suffixes removed here. -/
def dropRightS (s : String) (n : Nat) : String :=
  ⟨s.data.take (s.data.length - n)⟩

/-- Digit accumulation for parseI64. -/
def digitsValAux : Nat → List Char → Option Nat
  | acc, [] => some acc
  | acc, c :: rest =>
      if c.isDigit then digitsValAux (acc * 10 + (c.toNat - 48)) rest else none

/-- str::parse::<i64>: an optional sign followed by at least one ASCII
digit, rejecting anything else and values outside the i64 range. -/
def parseI64 (s : String) : Option Int :=
  let check : Int → List Char → Option Int := fun sign ds =>
    match ds with
    | [] => none
    | _ => (digitsValAux 0 ds).bind fun n =>
        let v : Int := sign * n
        if -9223372036854775808 ≤ v ∧ v ≤ 9223372036854775807 then some v
        else none
  match s.data with
  | [] => none
  | '-' :: rest => check (-1) rest
  | '+' :: rest => check 1 rest
  | ds => check 1 ds

/-- parse_since from cli/src/commands/search.rs, with durations in seconds:
None means no filter, a recognized suffix yields now minus the duration,
a parse failure or unrecognized suffix is an error. -/
def cli_parse_since (now : Int) (since : Option String) :
    Except String (Option Int) :=
  match since with
  | none => Except.ok none
  | some s =>
    if endsWithS s "d" then
      match parseI64 (dropRightS s 1) with
      | some n => Except.ok (some (now - n * 86400))
      | none => Except.error "invalid digit found in string"
    else if endsWithS s "h" then
      match parseI64 (dropRightS s 1) with
      | some n => Except.ok (some (now - n * 3600))
      | none => Except.error "invalid digit found in string"
    else if endsWithS s "w" then
      match parseI64 (dropRightS s 1) with
      | some n => Except.ok (some (now - n * 604800))
      | none => Except.error "invalid digit found in string"
    else if endsWithS s "m" ∧ ¬ endsWithS s "min" then
      match parseI64 (dropRightS s 1) with
      | some n => Except.ok (some (now - n * 30 * 86400))
      | none => Except.error "invalid digit found in string"
    else
      Except.error ("Invalid duration format: " ++ s ++ ". Use Nd, Nh, Nw, Nm")

/-- parse_duration from apps/desktop/src-tauri/src/commands/mod.rs, with
durations in seconds: a parse failure or unrecognized suffix yields None. -/
def parse_duration (s : String) : Option Int :=
  if endsWithS s "d" then (parseI64 (dropRightS s 1)).map fun n => n * 86400
  else if endsWithS s "h" then (parseI64 (dropRightS s 1)).map fun n => n * 3600
  else if endsWithS s "w" then
    (parseI64 (dropRightS s 1)).map fun n => n * 604800
  else if endsWithS s "m" ∧ ¬ endsWithS s "min" then
    (parseI64 (dropRightS s 1)).map fun n => n * 30 * 86400
  else none

/-- Since computation of the desktop search_events command:
facets.since.and_then(parse_duration).map(now - duration), so an
unparseable string flows through as no filter. -/
def desktop_since (now : Int) (since : Option String) : Option Int :=
  (since.bind parse_duration).map fun dur => now - dur

end Boundary

namespace Ingest

/-- Outcome of Adapter::parse_session for one discovered descriptor:
either a typed parse error or a parsed session with its events. -/
inductive ParseOutcome where
  | failed
  | parsed (s : Store.Session) (events : List Store.Event)
deriving DecidableEq

/-- Ingestion loop shared by ingest_claude, ingest_codex, ingest_opencode
and ingest_crush (apps/desktop/src-tauri/src/commands/ingest.rs): each
descriptor is counted imported when parse and insert both succeed and
failed otherwise; the batch never aborts. -/
def loop (ok : Store.EventRow → Bool) : Store.Db → List ParseOutcome →
    Store.Db × Nat × Nat
  | db, [] => (db, 0, 0)
  | db, .failed :: rest =>
      let r := loop ok db rest
      (r.1, r.2.1, r.2.2 + 1)
  | db, .parsed s evs :: rest =>
      match Store.insert_session_with_events ok db s evs with
      | (db1, true) =>
          let r := loop ok db1 rest
          (r.1, r.2.1 + 1, r.2.2)
      | (db1, false) =>
          let r := loop ok db1 rest
          (r.1, r.2.1, r.2.2 + 1)

/-- Report of ingest_single_source (duration_ms, a wall-clock measurement,
is not modelled). -/
structure IngestResult where
  imported : Nat
  failed : Nat
  total : Nat
  source : String
deriving DecidableEq, Repr

/-- ingest_single_source: run the per-source loop over the discovered
descriptors and report (imported, failed, total) with total the sum. -/
def ingest_single_source (ok : Store.EventRow → Bool) (db : Store.Db)
    (source : Source) (discovered : List ParseOutcome) :
    Store.Db × IngestResult :=
  let r := loop ok db discovered
  (r.1, ⟨r.2.1, r.2.2, r.2.1 + r.2.2, source.toStr⟩)

end Ingest

/-- C3: in ModelMetadata::calculate_cost the extended-context price tier
applies to both input and output pricing exactly when input tokens exceed
200000 (so exactly 200000 input tokens is priced at the base rate for both
sides and any larger count at the extended rate for both, falling back to
the base rate when no extended price is published), and the cost is
input_tokens over one million times the applicable input price plus
output_tokens over one million times the applicable output price. -/
theorem c3_cost_extended_tier (m : ModelMetadata) (inp outp : Nat) :
    (inp ≤ 200000 →
      m.calculate_cost inp outp =
        (inp : ℚ) / 1000000 * m.input_price_per_1m
          + (outp : ℚ) / 1000000 * m.output_price_per_1m) ∧
    (200000 < inp →
      m.calculate_cost inp outp =
        (inp : ℚ) / 1000000 *
            (m.extended_input_price_per_1m.getD m.input_price_per_1m)
          + (outp : ℚ) / 1000000 *
            (m.extended_output_price_per_1m.getD m.output_price_per_1m)) := by
  constructor
  · intro h
    simp only [ModelMetadata.calculate_cost, gt_iff_lt, Nat.not_lt.mpr h,
      if_false]
  · intro h
    simp only [ModelMetadata.calculate_cost, gt_iff_lt, h, if_true]

/-- Witness for c3_cost_extended_tier: a model priced at one dollar per
million with a five dollar extended tier costs the base rate at exactly
200000 input tokens and the extended rate at 250000. -/
theorem c3_cost_extended_tier_witness :
    ModelMetadata.calculate_cost ⟨"t", "t", 1, 3, some 5, some 7⟩ 200000 60000 =
        (200000 : ℚ) / 1000000 * 1 + (60000 : ℚ) / 1000000 * 3 ∧
    ModelMetadata.calculate_cost ⟨"t", "t", 1, 3, some 5, some 7⟩ 250000 60000 =
        (250000 : ℚ) / 1000000 * 5 + (60000 : ℚ) / 1000000 * 7 := by
  constructor
  · exact (c3_cost_extended_tier ⟨"t", "t", 1, 3, some 5, some 7⟩ 200000 60000).1
      (by decide)
  · have h := (c3_cost_extended_tier ⟨"t", "t", 1, 3, some 5, some 7⟩ 250000
      60000).2 (by decide)
    simpa using h

/-- C5 counterexample: the instant 500000000 epoch seconds (1985) encoded
as seconds normalizes to 500000000 but encoded as 500000000000 epoch
milliseconds stays below the magnitude threshold, is treated as seconds and
normalizes to the year-17815 instant 500000000000, so the two encodings of
one instant do not normalize to the same UTC instant. -/
theorem c5_timestamp_counterexample :
    Crush.timestamp_to_datetime 0 500000000 = 500000000 ∧
    Crush.timestamp_to_datetime 0 500000000000 = 500000000000 ∧
    (500000000000 : Int) ≠ 500000000 := by decide

/-- C5 amended: normalization treats an integer timestamp as epoch
milliseconds exactly when it exceeds 1000000000000 and as epoch seconds
otherwise; the seconds and milliseconds encodings of one instant therefore
agree exactly on instants whose millisecond encoding clears the threshold
while the seconds encoding does not, that is instants with epoch second in
the interval from 1000000000 exclusive (September 2001) to 1000000000000
inclusive; and a value whose chrono conversion fails falls back to the
ingestion wall-clock time instead of aborting parsing. -/
theorem c5_timestamp_amended :
    (∀ now ts : Int, 1000000000000 < ts →
       Crush.timestamp_to_datetime now ts =
         (Crush.chronoTimestampOpt (ts / 1000)).getD now) ∧
    (∀ now ts : Int, ts ≤ 1000000000000 →
       Crush.timestamp_to_datetime now ts =
         (Crush.chronoTimestampOpt ts).getD now) ∧
    (∀ now s : Int, 1000000000 < s → s ≤ 1000000000000 →
       Crush.timestamp_to_datetime now (s * 1000) =
         Crush.timestamp_to_datetime now s ∧
       Crush.timestamp_to_datetime now s = s) ∧
    (∀ now v : Int,
       Crush.chronoTimestampOpt
         (if 1000000000000 < v then v / 1000 else v) = none →
       Crush.timestamp_to_datetime now v = now) := by
  refine ⟨?_, ?_, ?_, ?_⟩
  · intro now ts h
    simp only [Crush.timestamp_to_datetime, gt_iff_lt, h, if_true]
  · intro now ts h
    simp only [Crush.timestamp_to_datetime, gt_iff_lt, Int.not_lt.mpr h,
      if_false]
  · intro now s h1 h2
    have hms : (1000000000000 : Int) < s * 1000 := by nlinarith
    have hdiv : s * 1000 / 1000 = s := Int.mul_ediv_cancel s (by norm_num)
    have hvalid : Crush.chronoTimestampOpt s = some s := by
      simp only [Crush.chronoTimestampOpt, Crush.chronoMinSecs,
        Crush.chronoMaxSecs]
      rw [if_pos]
      exact ⟨by linarith, by linarith⟩
    constructor
    · simp only [Crush.timestamp_to_datetime, gt_iff_lt, hms, if_true, hdiv,
        Int.not_lt.mpr h2, if_false]
    · simp only [Crush.timestamp_to_datetime, gt_iff_lt,
        Int.not_lt.mpr h2, if_false, hvalid, Option.getD_some]
  · intro now v h
    simp only [Crush.timestamp_to_datetime, gt_iff_lt]
    split <;> rename_i hc
    · rw [if_pos hc] at h
      simp [h]
    · rw [if_neg hc] at h
      simp [h]

/-- Witness for c5_timestamp_amended: the millisecond value 2000000000000
is divided down to epoch second 2000000000, the seconds value 1704067200
passes through, the two encodings of epoch second 2000000000 agree, and the
unrepresentable value 10000000000000000 falls back to the ingestion time 7. -/
theorem c5_timestamp_amended_witness :
    Crush.timestamp_to_datetime 0 2000000000000 =
      (Crush.chronoTimestampOpt 2000000000).getD 0 ∧
    Crush.timestamp_to_datetime 0 1704067200 =
      (Crush.chronoTimestampOpt 1704067200).getD 0 ∧
    (Crush.timestamp_to_datetime 0 (2000000000 * 1000) =
       Crush.timestamp_to_datetime 0 2000000000 ∧
     Crush.timestamp_to_datetime 0 2000000000 = 2000000000) ∧
    Crush.timestamp_to_datetime 7 10000000000000000 = 7 := by
  refine ⟨?_, ?_, ?_, ?_⟩
  · have h := c5_timestamp_amended.1 0 2000000000000 (by decide)
    simpa using h
  · exact c5_timestamp_amended.2.1 0 1704067200 (by decide)
  · exact c5_timestamp_amended.2.2.1 0 2000000000 (by decide) (by decide)
  · exact c5_timestamp_amended.2.2.2 7 10000000000000000 (by decide)

/-- Helper: the tool-call accumulator of the parts fold collects exactly
the names of the tool_use parts, in order, after the initial accumulator. -/
theorem foldParts_snd (parts : List Crush.ContentPart) :
    ∀ cs ts, (Crush.foldParts parts (cs, ts)).2 =
      ts ++ parts.filterMap Crush.ContentPart.toolName := by
  induction parts with
  | nil => intro cs ts; simp [Crush.foldParts]
  | cons p rest ih =>
      intro cs ts
      cases p <;> simp [Crush.foldParts, Crush.ContentPart.toolName, ih]

/-- Helper: a part has a tool name exactly when it is a tool_use part. -/
theorem toolName_isToolUse (p : Crush.ContentPart) :
    p.toolName ≠ none ↔ p.isToolUse = true := by
  cases p <;> simp [Crush.ContentPart.toolName, Crush.ContentPart.isToolUse]

/-- C7 counterexample: a Crush message with role user whose parts contain a
tool-use part is classified Message, not ToolCall, so containing a tool-use
part alone does not force the ToolCall classification. -/
theorem c7_toolcall_counterexample :
    (Crush.extract_content_from_parts
        [Crush.ContentPart.toolUse "call_123" "read_file" Json.null]
        "user").1 = EventKind.message ∧
    EventKind.message ≠ EventKind.toolCall := ⟨rfl, by decide⟩

/-- C7 amended: a message parsed from the Crush source is classified
ToolCall exactly when its role is assistant and its parts contain at least
one tool-use part; in every other case it is classified Message. -/
theorem c7_toolcall_amended (parts : List Crush.ContentPart) (role : String) :
    (Crush.extract_content_from_parts parts role).1 = EventKind.toolCall ↔
      (role = "assistant" ∧ parts.any Crush.ContentPart.isToolUse = true) := by
  have hsnd := foldParts_snd parts [] []
  simp only [List.nil_append] at hsnd
  have hiff : parts.filterMap Crush.ContentPart.toolName ≠ [] ↔
      parts.any Crush.ContentPart.isToolUse = true := by
    rw [Ne, List.filterMap_eq_nil_iff, List.any_eq_true]
    push_neg
    constructor
    · rintro ⟨a, ha, hn⟩
      exact ⟨a, ha, (toolName_isToolUse a).mp hn⟩
    · rintro ⟨a, ha, hn⟩
      exact ⟨a, ha, (toolName_isToolUse a).mpr hn⟩
  simp only [Crush.extract_content_from_parts, hsnd]
  split
  · rename_i h
    simp only [true_iff]
    exact ⟨h.1, hiff.mp h.2⟩
  · rename_i h
    constructor
    · intro hk
      exact absurd hk (by decide)
    · intro hc
      exact absurd ⟨hc.1, hiff.mpr hc.2⟩ h

/-- Helper: the timestamp scan returns the first and last parsed timestamp
of the line list, each falling back to the corresponding accumulator. -/
theorem scanTimestamps_spec (l : List (Option Int)) :
    ∀ f la, Claude.scanTimestamps f la l =
      (f <|> (l.filterMap id).head?, (l.filterMap id).getLast? <|> la) := by
  induction l with
  | nil => intro f la; simp [Claude.scanTimestamps]
  | cons o rest ih =>
      intro f la
      cases o with
      | none => simp [Claude.scanTimestamps, ih, List.filterMap_cons]
      | some t =>
          rw [Claude.scanTimestamps, ih]
          refine Prod.ext ?_ ?_
          · simp only [List.filterMap_cons, id]
            cases f <;> simp [Claude.scanTimestamps]
          · simp only [List.filterMap_cons, id]
            cases hR : rest.filterMap id with
            | nil => simp
            | cons y ys =>
                rw [List.getLast?_cons_cons]
                cases hz : (y :: ys).getLast? with
                | none => simp at hz
                | some z => simp

/-- Helper: derived (created_at, updated_at) in terms of the first and last
parseable timestamp of the file. -/
theorem deriveTimes_spec (now : Int) (stamps : List (Option Int)) :
    Claude.deriveTimes now stamps =
      (((stamps.filterMap id).head?).getD now,
       ((stamps.filterMap id).getLast?).getD
         (((stamps.filterMap id).head?).getD now)) := by
  unfold Claude.deriveTimes
  rw [scanTimestamps_spec]
  simp

/-- Helper: the head of a chain of non-decreasing integers bounds its last
element. -/
theorem chain_head_le_getLast (xs : List Int) :
    ∀ x y : Int, List.Chain' (· ≤ ·) (x :: xs) →
      (x :: xs).getLast? = some y → x ≤ y := by
  induction xs with
  | nil =>
      intro x y _ h
      simp only [List.getLast?_singleton, Option.some.injEq] at h
      omega
  | cons z zs ih =>
      intro x y hch hlast
      rw [List.getLast?_cons_cons] at hlast
      have h1 : x ≤ z := (List.chain'_cons.mp hch).1
      have h2 := ih z y (List.chain'_cons.mp hch).2 hlast
      omega

/-- C2 counterexample: a session file whose two parseable entry timestamps
appear in decreasing file order derives created_at 100 and updated_at 50,
violating the claimed invariant created_at less-or-equal updated_at (the
code takes the first and last timestamp in file order, not the earliest and
latest). -/
theorem c2_derive_counterexample :
    (Claude.deriveTimes 0 [some 100, some 50]).1 = 100 ∧
    (Claude.deriveTimes 0 [some 100, some 50]).2 = 50 ∧
    ¬ (Claude.deriveTimes 0 [some 100, some 50]).1 ≤
        (Claude.deriveTimes 0 [some 100, some 50]).2 := by decide

/-- C2 amended: created_at and updated_at are the first and last parseable
entry timestamps in file order (for Codex every retained line contributes,
unparseable lines falling back per line to ingestion time); created_at is
less-or-equal updated_at whenever those observed timestamps are
non-decreasing in file order, and when no timestamp is parseable (or the
file has no lines) both equal the ingestion wall-clock time. -/
theorem c2_derive_amended :
    (∀ (now : Int) (stamps : List (Option Int)),
       List.Chain' (· ≤ ·) (stamps.filterMap id) →
       (Claude.deriveTimes now stamps).1 ≤ (Claude.deriveTimes now stamps).2) ∧
    (∀ (now : Int) (stamps : List (Option Int)), stamps.filterMap id = [] →
       Claude.deriveTimes now stamps = (now, now)) ∧
    (∀ (now : Int) (stamps : List (Option Int)),
       List.Chain' (· ≤ ·) (stamps.map fun o => o.getD now) →
       (Codex.deriveTimes now stamps).1 ≤ (Codex.deriveTimes now stamps).2) ∧
    (∀ now : Int, Codex.deriveTimes now [] = (now, now)) := by
  have key : ∀ (now : Int) (fm : List Int),
      List.Chain' (· ≤ ·) fm →
      (fm.head?.getD now) ≤ (fm.getLast?.getD (fm.head?.getD now)) := by
    intro now fm hch
    cases hfm : fm with
    | nil => simp
    | cons x xs =>
        rw [hfm] at hch
        cases hz : (x :: xs).getLast? with
        | none => simp at hz
        | some z =>
            have := chain_head_le_getLast xs x z hch hz
            simp only [List.head?_cons, Option.getD_some]
            omega
  have hmap : ∀ (now : Int) (l : List (Option Int)),
      (l.map fun o => some (o.getD now)).filterMap id =
        l.map fun o => o.getD now := by
    intro now l
    induction l with
    | nil => simp
    | cons o rest ih => simp [List.filterMap_cons, ih]
  refine ⟨?_, ?_, ?_, ?_⟩
  · intro now stamps hch
    rw [deriveTimes_spec]
    exact key now (stamps.filterMap id) hch
  · intro now stamps h
    rw [deriveTimes_spec, h]
    simp
  · intro now stamps hch
    unfold Codex.deriveTimes
    rw [deriveTimes_spec, hmap]
    exact key now (stamps.map fun o => o.getD now) hch
  · intro now
    rfl

/-- Witness for c2_derive_amended: an in-order file derives ordered times,
an all-unparseable file derives (now, now) for both adapters. -/
theorem c2_derive_amended_witness :
    (Claude.deriveTimes 0 [some 1, none, some 5]).1 ≤
      (Claude.deriveTimes 0 [some 1, none, some 5]).2 ∧
    Claude.deriveTimes 42 [none, none] = (42, 42) ∧
    (Codex.deriveTimes 3 [some 2, none]).1 ≤
      (Codex.deriveTimes 3 [some 2, none]).2 ∧
    Codex.deriveTimes 9 [] = (9, 9) := by
  refine ⟨?_, ?_, ?_, ?_⟩
  · exact c2_derive_amended.1 0 [some 1, none, some 5]
      (by simp [List.filterMap_cons, List.chain'_cons])
  · exact c2_derive_amended.2.1 42 [none, none] (by decide)
  · exact c2_derive_amended.2.2.1 3 [some 2, none]
      (by simp [List.chain'_cons])
  · exact c2_derive_amended.2.2.2 9

/-- C8 counterexample: the unrecognized-suffix string 7x is not rejected at
the desktop query boundary: parse_duration yields no duration and the
search command then applies no since filter, exactly as if no filter had
been given, instead of raising a validation error. -/
theorem c8_since_counterexample :
    Boundary.parse_duration "7x" = none ∧
    Boundary.desktop_since 0 (some "7x") = none ∧
    Boundary.desktop_since 0 none = none := by decide

/-- C8 amended: both relative-date parsers read Nd as N days, Nh as N
hours, Nw as N weeks and Nm as N times 30 days (a trailing min token never
matches the months branch); on an unrecognized suffix the CLI parse_since
rejects the string as a validation error before querying, while the desktop
parse_duration returns no duration and the desktop search silently treats
the string as no since filter. -/
theorem c8_since_amended :
    (∀ now : Int, Boundary.cli_parse_since now none = Except.ok none) ∧
    (∀ (now n : Int) (s : String), Boundary.endsWithS s "d" = true →
       Boundary.parseI64 (Boundary.dropRightS s 1) = some n →
       Boundary.cli_parse_since now (some s) =
         Except.ok (some (now - n * 86400)) ∧
       Boundary.parse_duration s = some (n * 86400)) ∧
    (∀ (now n : Int) (s : String), Boundary.endsWithS s "d" = false →
       Boundary.endsWithS s "h" = true →
       Boundary.parseI64 (Boundary.dropRightS s 1) = some n →
       Boundary.cli_parse_since now (some s) =
         Except.ok (some (now - n * 3600)) ∧
       Boundary.parse_duration s = some (n * 3600)) ∧
    (∀ (now n : Int) (s : String), Boundary.endsWithS s "d" = false →
       Boundary.endsWithS s "h" = false →
       Boundary.endsWithS s "w" = true →
       Boundary.parseI64 (Boundary.dropRightS s 1) = some n →
       Boundary.cli_parse_since now (some s) =
         Except.ok (some (now - n * 604800)) ∧
       Boundary.parse_duration s = some (n * 604800)) ∧
    (∀ (now n : Int) (s : String), Boundary.endsWithS s "d" = false →
       Boundary.endsWithS s "h" = false →
       Boundary.endsWithS s "w" = false →
       Boundary.endsWithS s "m" = true →
       Boundary.endsWithS s "min" = false →
       Boundary.parseI64 (Boundary.dropRightS s 1) = some n →
       Boundary.cli_parse_since now (some s) =
         Except.ok (some (now - n * 30 * 86400)) ∧
       Boundary.parse_duration s = some (n * 30 * 86400)) ∧
    (∀ (now : Int) (s : String), Boundary.endsWithS s "d" = false →
       Boundary.endsWithS s "h" = false →
       Boundary.endsWithS s "w" = false →
       (Boundary.endsWithS s "m" = false ∨ Boundary.endsWithS s "min" = true) →
       Boundary.cli_parse_since now (some s) =
         Except.error
           ("Invalid duration format: " ++ s ++ ". Use Nd, Nh, Nw, Nm") ∧
       Boundary.parse_duration s = none ∧
       Boundary.desktop_since now (some s) = none ∧
       Boundary.desktop_since now (some s) =
         Boundary.desktop_since now none) := by
  refine ⟨?_, ?_, ?_, ?_, ?_, ?_⟩
  · intro now; rfl
  · intro now n s h1 h2
    constructor <;>
      simp [Boundary.cli_parse_since, Boundary.parse_duration, h1, h2]
  · intro now n s h1 h2 h3
    constructor <;>
      simp [Boundary.cli_parse_since, Boundary.parse_duration, h1, h2, h3]
  · intro now n s h1 h2 h3 h4
    constructor <;>
      simp [Boundary.cli_parse_since, Boundary.parse_duration, h1, h2, h3, h4]
  · intro now n s h1 h2 h3 h4 h5 h6
    constructor <;>
      simp [Boundary.cli_parse_since, Boundary.parse_duration,
        h1, h2, h3, h4, h5, h6]
  · intro now s h1 h2 h3 h4
    have hpd : Boundary.parse_duration s = none := by
      rcases h4 with h4 | h4 <;>
        simp [Boundary.parse_duration, h1, h2, h3, h4]
    refine ⟨?_, hpd, ?_, ?_⟩
    · rcases h4 with h4 | h4 <;>
        simp [Boundary.cli_parse_since, h1, h2, h3, h4]
    · simp [Boundary.desktop_since, hpd]
    · simp [Boundary.desktop_since, hpd]

/-- Witness for c8_since_amended: concrete strings for every branch of the
suffix grammar, including the trailing min rejection. -/
theorem c8_since_amended_witness :
    Boundary.cli_parse_since 0 none = Except.ok none ∧
    Boundary.cli_parse_since 0 (some "3d") = Except.ok (some (0 - 3 * 86400)) ∧
    Boundary.parse_duration "3d" = some (3 * 86400) ∧
    Boundary.cli_parse_since 0 (some "2h") = Except.ok (some (0 - 2 * 3600)) ∧
    Boundary.cli_parse_since 0 (some "1w") = Except.ok (some (0 - 1 * 604800)) ∧
    Boundary.cli_parse_since 0 (some "2m") =
      Except.ok (some (0 - 2 * 30 * 86400)) ∧
    Boundary.cli_parse_since 0 (some "5min") =
      Except.error ("Invalid duration format: 5min. Use Nd, Nh, Nw, Nm") ∧
    Boundary.parse_duration "5min" = none ∧
    Boundary.desktop_since 0 (some "5min") = Boundary.desktop_since 0 none := by
  refine ⟨c8_since_amended.1 0, ?_, ?_, ?_, ?_, ?_, ?_, ?_, ?_⟩
  · exact (c8_since_amended.2.1 0 3 "3d" (by decide) (by decide)).1
  · exact (c8_since_amended.2.1 0 3 "3d" (by decide) (by decide)).2
  · exact (c8_since_amended.2.2.1 0 2 "2h" (by decide) (by decide)
      (by decide)).1
  · exact (c8_since_amended.2.2.2.1 0 1 "1w" (by decide) (by decide)
      (by decide) (by decide)).1
  · exact (c8_since_amended.2.2.2.2.1 0 2 "2m" (by decide) (by decide)
      (by decide) (by decide) (by decide) (by decide)).1
  · exact (c8_since_amended.2.2.2.2.2 0 "5min" (by decide) (by decide)
      (by decide) (Or.inr (by decide))).1
  · exact (c8_since_amended.2.2.2.2.2 0 "5min" (by decide) (by decide)
      (by decide) (Or.inr (by decide))).2.1
  · exact (c8_since_amended.2.2.2.2.2 0 "5min" (by decide) (by decide)
      (by decide) (Or.inr (by decide))).2.2.2

/-- C6 counterexample: a Codex response_item line whose inner type
discriminator is unknown produces no event at all (parse_response_item
returns None), instead of the claimed System event with a synthesized
placeholder content string. -/
theorem c6_unknown_counterexample :
    Codex.parse_response_item
      ⟨"2024-01-01T00:00:00Z", "response_item",
        Json.obj [("type", Json.str "bogus")]⟩ 0 = none := rfl

/-- C6 amended: in the Claude adapter every JSON line bearing a string type
discriminator becomes exactly one event, and an unknown discriminator
becomes a System event whose content is the synthesized placeholder
Unknown type followed by the discriminator; the Codex adapter instead
drops entries with unknown discriminators: parse_response_item and
parse_event_msg return no event for item or message types outside their
known sets. -/
theorem c6_unknown_amended :
    (∀ (rfc : String → Option Int) (now : Int) (v : Json) (t : String),
       v.getStr "type" = some t →
       ∃ e, Claude.parse_event_line rfc now v = some e ∧
         (t ≠ "user" → t ≠ "assistant" → t ≠ "system" → t ≠ "progress" →
          t ≠ "file-history-snapshot" → t ≠ "queue-operation" → t ≠ "error" →
          e.kind = EventKind.system ∧
          e.content = some ("Unknown type: " ++ t))) ∧
    (∀ (ev : Codex.CodexEvent) (ts : Int) (item : Codex.ResponseItem),
       Codex.responseItemOfJson ev.payload = some item →
       item.item_type ≠ "message" → item.item_type ≠ "function_call" →
       item.item_type ≠ "function_call_output" →
       item.item_type ≠ "reasoning" →
       Codex.parse_response_item ev ts = none) ∧
    (∀ (ev : Codex.CodexEvent) (ts : Int) (msg : Codex.EventMessage),
       Codex.eventMessageOfJson ev.payload = some msg →
       msg.msg_type ≠ "user_message" → msg.msg_type ≠ "agent_reasoning" →
       Codex.parse_event_msg ev ts = none) := by
  refine ⟨?_, ?_, ?_⟩
  · intro rfc now v t h
    simp only [Claude.parse_event_line, h]
    refine ⟨_, rfl, ?_⟩
    intro h1 h2 h3 h4 h5 h6 h7
    simp only [if_neg h1, if_neg h2, if_neg h3, if_neg h4, if_neg h5,
      if_neg h6, if_neg h7]
    constructor <;> trivial
  · intro ev ts item h h1 h2 h3 h4
    simp only [Codex.parse_response_item, h]
    simp [h1, h2, h3, h4]
  · intro ev ts msg h h1 h2
    simp only [Codex.parse_event_msg, h]
    simp [h1, h2]

/-- Witness for c6_unknown_amended: a Claude line of unknown type custom
becomes a System event with the placeholder content, a Codex response item
of unknown type weird and an event message of type token_count produce no
event. -/
theorem c6_unknown_amended_witness :
    ((Claude.parse_event_line (fun _ => none) 0
        (Json.obj [("type", Json.str "custom")])).map
      fun e => (e.kind, e.content)) =
      some (EventKind.system, some ("Unknown type: " ++ "custom")) ∧
    Codex.parse_response_item
      ⟨"t", "response_item", Json.obj [("type", Json.str "weird")]⟩ 3 =
        none ∧
    Codex.parse_event_msg
      ⟨"t", "event_msg", Json.obj [("type", Json.str "token_count")]⟩ 3 =
        none := by
  refine ⟨?_, ?_, ?_⟩
  · obtain ⟨e, he, hp⟩ := c6_unknown_amended.1 (fun _ => none) 0
      (Json.obj [("type", Json.str "custom")]) "custom" rfl
    have hk := hp (by decide) (by decide) (by decide) (by decide) (by decide)
      (by decide) (by decide)
    rw [he]
    simp [hk.1, hk.2]
  · exact c6_unknown_amended.2.1
      ⟨"t", "response_item", Json.obj [("type", Json.str "weird")]⟩ 3
      ⟨"weird", none, none, none, none, none, none⟩ rfl (by decide)
      (by decide) (by decide) (by decide)
  · exact c6_unknown_amended.2.2
      ⟨"t", "event_msg", Json.obj [("type", Json.str "token_count")]⟩ 3
      ⟨"token_count", none⟩ rfl (by decide) (by decide)

/-- C4: at the search query boundary an unset facet is bound as the empty
string sentinel and ignored: searching events with an unset project facet
filters by every other conjunct but places no condition on the project
(the union across all projects), and a project facet set to a non-sentinel
value matched by no session row yields the empty result list, an ordinary
value rather than an error. -/
theorem c4_facet_semantics :
    (∀ (matchQ : Store.EventRow → Bool) (db : Store.Db)
       (src kind since : Option String),
       Store.search_events matchQ db ⟨src, none, kind, since⟩ =
         db.events.filter fun e =>
           matchQ e
           && db.sessions.any (fun s =>
                s.id == e.session_id
                && (src.getD "" == "" || s.source == src.getD ""))
           && (kind.getD "" == "" || e.kind == kind.getD "")
           && (since.getD "" == "" ||
                decide (since.getD "" ≤ e.timestamp))) ∧
    (∀ (matchQ : Store.EventRow → Bool) (db : Store.Db)
       (src kind since : Option String) (p : String), p ≠ "" →
       (∀ s ∈ db.sessions, s.project ≠ p) →
       Store.search_events matchQ db ⟨src, some p, kind, since⟩ = []) := by
  constructor
  · intro matchQ db src kind since
    simp only [Store.search_events, Store.searchEventsFiltered,
      Option.getD_none]
    apply List.filter_congr
    intro e _
    simp
  · intro matchQ db src kind since p hp hnone
    simp only [Store.search_events, Store.searchEventsFiltered,
      Option.getD_some]
    rw [List.filter_eq_nil_iff]
    intro e _
    have hany : db.sessions.any (fun s =>
        s.id == e.session_id
        && (src.getD "" == "" || s.source == src.getD "")
        && (p == "" || s.project == p)) = false := by
      rw [List.any_eq_false]
      intro s hs
      have h1 : (s.project == p) = false := by
        rw [beq_eq_false_iff_ne]
        exact hnone s hs
      have h2 : (p == "") = false := by
        rw [beq_eq_false_iff_ne]
        exact hp
      simp [h1, h2]
    simp [hany]

/-- Witness for c4_facet_semantics: in a one-session database under project
alpha, an all-unset search returns the matching event and a search with
the project facet set to beta returns the empty result list. -/
theorem c4_facet_semantics_witness :
    Store.search_events (fun _ => true)
        ⟨[⟨"s1", "claude", "e1", "alpha", "t", "c", "u", "r"⟩],
         [⟨"ev1", "s1", "message", "user", "hello", "2024", "raw"⟩]⟩
        ⟨none, none, none, none⟩ =
      [⟨"ev1", "s1", "message", "user", "hello", "2024", "raw"⟩] ∧
    Store.search_events (fun _ => true)
        ⟨[⟨"s1", "claude", "e1", "alpha", "t", "c", "u", "r"⟩],
         [⟨"ev1", "s1", "message", "user", "hello", "2024", "raw"⟩]⟩
        ⟨none, some "beta", none, none⟩ = [] := by
  constructor
  · rw [c4_facet_semantics.1]
    decide
  · exact c4_facet_semantics.2 (fun _ => true)
      ⟨[⟨"s1", "claude", "e1", "alpha", "t", "c", "u", "r"⟩],
       [⟨"ev1", "s1", "message", "user", "hello", "2024", "raw"⟩]⟩
      none none none "beta" (by decide) (by decide)

/-- Helper: the event insertion loop never touches the sessions table. -/
theorem insertEventsLoop_sessions (ok : Store.EventRow → Bool)
    (evs : List Store.Event) :
    ∀ db : Store.Db,
      ((Store.insertEventsLoop ok db evs).1).sessions = db.sessions := by
  induction evs with
  | nil => intro db; rfl
  | cons e rest ih =>
      intro db
      cases hok : ok (Store.eventToParams e) with
      | true => simp [Store.insertEventsLoop, Store.insert_event, hok, ih]
      | false => simp [Store.insertEventsLoop, Store.insert_event, hok]

/-- Helper: the sessions table after insert_session_with_events is exactly
the upsert of the marshalled session row. -/
theorem insert_session_with_events_sessions (ok : Store.EventRow → Bool)
    (db : Store.Db) (s : Store.Session) (evs : List Store.Event) :
    ((Store.insert_session_with_events ok db s evs).1).sessions =
      Store.upsertSession db.sessions (Store.sessionToParams s) := by
  rw [Store.insert_session_with_events, insertEventsLoop_sessions]
  rfl

/-- C1: after insert_session_with_events runs twice with sessions sharing
the natural key (source, external_id), starting from a database holding no
row for that key, exactly one sessions row exists for the key; it keeps the
id, created_at (and project) of the first insert and takes the title,
updated_at and raw_payload of the second. -/
theorem c1_session_upsert (ok : Store.EventRow → Bool) (db : Store.Db)
    (s1 s2 : Store.Session) (evs1 evs2 : List Store.Event)
    (hsrc : s2.source = s1.source) (hext : s2.external_id = s1.external_id)
    (habs : ∀ r ∈ db.sessions,
      r.sameKey (Store.sessionToParams s1) = false) :
    ((Store.insert_session_with_events ok
          (Store.insert_session_with_events ok db s1 evs1).1 s2
          evs2).1.sessions).filter
        (fun r => r.sameKey (Store.sessionToParams s1)) =
      [⟨s1.id, s1.source.toStr, s1.external_id, s1.project.getD "",
        s2.title.getD "", s1.created_at, s2.updated_at, s2.raw_payload⟩] := by
  rw [insert_session_with_events_sessions, insert_session_with_events_sessions]
  have hkey : ∀ r : Store.SessionRow,
      r.sameKey (Store.sessionToParams s2) =
        r.sameKey (Store.sessionToParams s1) := by
    intro r
    simp [Store.SessionRow.sameKey, Store.sessionToParams, hsrc, hext]
  have hp12 : (Store.sessionToParams s1).sameKey (Store.sessionToParams s2) =
      true := by
    simp [Store.SessionRow.sameKey, Store.sessionToParams, hsrc, hext]
  have h1 : Store.upsertSession db.sessions (Store.sessionToParams s1) =
      db.sessions ++ [Store.sessionToParams s1] := by
    rw [Store.upsertSession, if_neg]
    rw [List.any_eq_true]
    push_neg
    intro r hr
    simp [habs r hr]
  rw [h1]
  have h2 : Store.upsertSession
      (db.sessions ++ [Store.sessionToParams s1]) (Store.sessionToParams s2) =
      (db.sessions ++ [Store.sessionToParams s1]).map (fun row =>
        if row.sameKey (Store.sessionToParams s2) then
          { row with title := (Store.sessionToParams s2).title,
                     updated_at := (Store.sessionToParams s2).updated_at,
                     raw_payload := (Store.sessionToParams s2).raw_payload }
        else row) := by
    rw [Store.upsertSession, if_pos]
    rw [List.any_eq_true]
    exact ⟨Store.sessionToParams s1, by simp, hp12⟩
  rw [h2, List.map_append, List.filter_append]
  have h3 : ((db.sessions.map (fun row =>
      if row.sameKey (Store.sessionToParams s2) then
        { row with title := (Store.sessionToParams s2).title,
                   updated_at := (Store.sessionToParams s2).updated_at,
                   raw_payload := (Store.sessionToParams s2).raw_payload }
      else row)).filter
        (fun r => r.sameKey (Store.sessionToParams s1))) = [] := by
    rw [List.filter_eq_nil_iff]
    intro a ha
    rw [List.mem_map] at ha
    obtain ⟨r, hr, rfl⟩ := ha
    simp [hkey r, habs r hr]
  rw [h3, List.nil_append]
  simp only [List.map_cons, List.map_nil, hp12, if_true]
  simp [Store.SessionRow.sameKey, Store.sessionToParams]

/-- Witness for c1_session_upsert: two concrete inserts sharing the key
(claude, ext1) on the empty database leave one row combining the first
identity fields with the second content fields. -/
theorem c1_session_upsert_witness :
    ((Store.insert_session_with_events (fun _ => true)
          (Store.insert_session_with_events (fun _ => true) ⟨[], []⟩
            ⟨"id1", Source.claude, "ext1", some "proj1", some "title1",
             "2024-01-01", "2024-01-02", "raw1"⟩ []).1
          ⟨"id2", Source.claude, "ext1", some "proj2", some "title2",
           "2024-01-03", "2024-01-04", "raw2"⟩ []).1.sessions).filter
        (fun r => r.sameKey
          (Store.sessionToParams
            ⟨"id1", Source.claude, "ext1", some "proj1", some "title1",
             "2024-01-01", "2024-01-02", "raw1"⟩)) =
      [⟨"id1", "claude", "ext1", "proj1", "title2", "2024-01-01",
        "2024-01-04", "raw2"⟩] := by
  have h := c1_session_upsert (fun _ => true) ⟨[], []⟩
    ⟨"id1", Source.claude, "ext1", some "proj1", some "title1",
     "2024-01-01", "2024-01-02", "raw1"⟩
    ⟨"id2", Source.claude, "ext1", some "proj2", some "title2",
     "2024-01-03", "2024-01-04", "raw2"⟩ [] [] rfl rfl
    (by intro r hr; simp at hr)
  simpa using h

/-- Helper: when every event before position k inserts successfully and the
event at position k fails, the insertion loop stops there, returns failure
and keeps the rows inserted so far. -/
theorem insertEventsLoop_fail (ok : Store.EventRow → Bool)
    (pre : List Store.Event) :
    ∀ (db : Store.Db) (e : Store.Event) (suf : List Store.Event),
      (∀ x ∈ pre, ok (Store.eventToParams x) = true) →
      ok (Store.eventToParams e) = false →
      Store.insertEventsLoop ok db (pre ++ e :: suf) =
        ({ db with events := db.events ++ pre.map Store.eventToParams },
         false) := by
  induction pre with
  | nil =>
      intro db e suf _ he
      simp [Store.insertEventsLoop, Store.insert_event, he]
  | cons x rest ih =>
      intro db e suf hpre he
      have hx : ok (Store.eventToParams x) = true := hpre x (by simp)
      simp only [List.cons_append, Store.insertEventsLoop,
        Store.insert_event, hx, if_true, List.append_eq]
      rw [ih _ e suf (fun y hy => hpre y (by simp [hy])) he]
      simp [List.append_assoc]

/-- C10: insert_session_with_events is not atomic: when inserting the
(k+1)-th event fails after k successful inserts, the call returns failure
while the upserted session row and the first k event rows remain persisted;
nothing is rolled back. -/
theorem c10_non_atomic (ok : Store.EventRow → Bool) (db : Store.Db)
    (s : Store.Session) (pre : List Store.Event) (e : Store.Event)
    (suf : List Store.Event)
    (hpre : ∀ x ∈ pre, ok (Store.eventToParams x) = true)
    (he : ok (Store.eventToParams e) = false) :
    Store.insert_session_with_events ok db s (pre ++ e :: suf) =
      ({ sessions := Store.upsertSession db.sessions (Store.sessionToParams s),
         events := db.events ++ pre.map Store.eventToParams }, false) := by
  rw [Store.insert_session_with_events,
    insertEventsLoop_fail ok pre _ e suf hpre he]
  rfl

/-- Witness for c10_non_atomic: with an oracle rejecting the row id bad,
the session row and the one preceding event survive while the call fails. -/
theorem c10_non_atomic_witness :
    Store.insert_session_with_events (fun r => r.id != "bad") ⟨[], []⟩
        ⟨"sid", Source.codex, "ext", none, none, "c", "u", "raw"⟩
        ([⟨"e1", "sid", EventKind.message, some Role.user, some "hi", "t1",
            "r1"⟩] ++
          ⟨"bad", "sid", EventKind.message, none, none, "t2", "r2"⟩ ::
            [⟨"e3", "sid", EventKind.message, none, none, "t3", "r3"⟩]) =
      ({ sessions := Store.upsertSession []
            (Store.sessionToParams
              ⟨"sid", Source.codex, "ext", none, none, "c", "u", "raw"⟩),
         events := [] ++ [⟨"e1", "sid", EventKind.message, some Role.user,
            some "hi", "t1", "r1"⟩].map Store.eventToParams }, false) :=
  c10_non_atomic _ _ _ _ _ _ (by decide) (by decide)

/-- Helper: with an oracle accepting every row, the event insertion loop
appends every marshalled event row and reports success. -/
theorem insertEventsLoop_ok_all (evs : List Store.Event) :
    ∀ db : Store.Db,
      Store.insertEventsLoop (fun _ => true) db evs =
        ({ db with events := db.events ++ evs.map Store.eventToParams },
         true) := by
  induction evs with
  | nil => intro db; simp [Store.insertEventsLoop]
  | cons e rest ih =>
      intro db
      simp [Store.insertEventsLoop, Store.insert_event, ih,
        List.append_assoc]

/-- Helper: the event insertion loop only appends to the events table. -/
theorem insertEventsLoop_events_mono (ok : Store.EventRow → Bool)
    (evs : List Store.Event) :
    ∀ (db : Store.Db) (x : Store.EventRow), x ∈ db.events →
      x ∈ (Store.insertEventsLoop ok db evs).1.events := by
  induction evs with
  | nil => intro db x hx; exact hx
  | cons e rest ih =>
      intro db x hx
      cases hok : ok (Store.eventToParams e) with
      | true =>
          simp only [Store.insertEventsLoop, Store.insert_event, hok,
            if_true]
          exact ih _ x (by simp [hx])
      | false =>
          simp only [Store.insertEventsLoop, Store.insert_event, hok,
            Bool.false_eq_true, if_false]
          exact hx

/-- Helper: the session upsert keeps every natural key already present. -/
theorem upsertSession_any_mono (t : List Store.SessionRow)
    (p : Store.SessionRow) (src ext : String)
    (h : t.any (fun r => r.source == src && r.external_id == ext) = true) :
    (Store.upsertSession t p).any
      (fun r => r.source == src && r.external_id == ext) = true := by
  rw [Store.upsertSession]
  split
  · rw [List.any_eq_true] at h ⊢
    obtain ⟨r, hr, hkey⟩ := h
    refine ⟨_, List.mem_map_of_mem _ hr, ?_⟩
    split <;> simpa using hkey
  · rw [List.any_eq_true] at h ⊢
    obtain ⟨r, hr, hkey⟩ := h
    exact ⟨r, by simp [hr], hkey⟩

/-- Helper: after a session upsert the natural key of the upserted row is
present. -/
theorem upsertSession_any_self (t : List Store.SessionRow)
    (p : Store.SessionRow) :
    (Store.upsertSession t p).any
      (fun r => r.source == p.source && r.external_id == p.external_id) =
      true := by
  rw [Store.upsertSession]
  split
  · rename_i hc
    rw [List.any_eq_true] at hc ⊢
    obtain ⟨r, hr, hkey⟩ := hc
    have hsame : r.source = p.source ∧ r.external_id = p.external_id := by
      simpa [Store.SessionRow.sameKey] using hkey
    refine ⟨_, List.mem_map_of_mem _ hr, ?_⟩
    split <;> simp [hsame.1, hsame.2]
  · rw [List.any_eq_true]
    exact ⟨p, by simp, by simp⟩

/-- Helper: the ingestion loop reports one of imported or failed for every
discovered descriptor. -/
theorem ingest_loop_counts (ok : Store.EventRow → Bool)
    (outcomes : List Ingest.ParseOutcome) :
    ∀ db : Store.Db,
      (Ingest.loop ok db outcomes).2.1 + (Ingest.loop ok db outcomes).2.2 =
        outcomes.length := by
  induction outcomes with
  | nil => intro db; rfl
  | cons o rest ih =>
      intro db
      cases o with
      | failed =>
          simp only [Ingest.loop, List.length_cons]
          have := ih db
          omega
      | parsed s evs =>
          simp only [Ingest.loop, List.length_cons]
          cases hins : Store.insert_session_with_events ok db s evs with
          | mk db1 b =>
              cases b
              · simp only []
                have := ih db1
                omega
              · simp only []
                have := ih db1
                omega

/-- Helper: a natural key present in the sessions table stays present
through the rest of an ingestion run. -/
theorem ingest_loop_key_mono (ok : Store.EventRow → Bool)
    (outcomes : List Ingest.ParseOutcome) :
    ∀ (db : Store.Db) (src ext : String),
      db.sessions.any
        (fun r => r.source == src && r.external_id == ext) = true →
      ((Ingest.loop ok db outcomes).1).sessions.any
        (fun r => r.source == src && r.external_id == ext) = true := by
  induction outcomes with
  | nil => intro db src ext h; exact h
  | cons o rest ih =>
      intro db src ext h
      cases o with
      | failed => simpa only [Ingest.loop] using ih db src ext h
      | parsed s evs =>
          simp only [Ingest.loop]
          cases hins : Store.insert_session_with_events ok db s evs with
          | mk db1 b =>
              have hdb1 : db1.sessions =
                  Store.upsertSession db.sessions (Store.sessionToParams s) := by
                have hq := insert_session_with_events_sessions ok db s evs
                rw [hins] at hq
                exact hq
              have h1 : db1.sessions.any
                  (fun r => r.source == src && r.external_id == ext) = true := by
                rw [hdb1]
                exact upsertSession_any_mono _ _ _ _ h
              cases b
              · exact ih db1 src ext h1
              · exact ih db1 src ext h1

/-- Helper: every event row already stored survives the rest of an
ingestion run. -/
theorem ingest_loop_events_mono (ok : Store.EventRow → Bool)
    (outcomes : List Ingest.ParseOutcome) :
    ∀ (db : Store.Db) (x : Store.EventRow), x ∈ db.events →
      x ∈ ((Ingest.loop ok db outcomes).1).events := by
  induction outcomes with
  | nil => intro db x hx; exact hx
  | cons o rest ih =>
      intro db x hx
      cases o with
      | failed => simpa only [Ingest.loop] using ih db x hx
      | parsed s evs =>
          simp only [Ingest.loop]
          cases hins : Store.insert_session_with_events ok db s evs with
          | mk db1 b =>
              have hx1 : x ∈ db1.events := by
                have hq := insertEventsLoop_events_mono ok evs
                  (Store.insert_session db s) x hx
                rw [Store.insert_session_with_events] at hins
                rw [hins] at hq
                exact hq
              cases b
              · exact ih db1 x hx1
              · exact ih db1 x hx1

/-- Helper: after an ingestion run, every parsed descriptor has a sessions
row for its natural key. -/
theorem ingest_loop_parsed_key (ok : Store.EventRow → Bool)
    (outcomes : List Ingest.ParseOutcome) :
    ∀ (db : Store.Db) (s : Store.Session) (evs : List Store.Event),
      Ingest.ParseOutcome.parsed s evs ∈ outcomes →
      ((Ingest.loop ok db outcomes).1).sessions.any
        (fun r => r.source == s.source.toStr &&
          r.external_id == s.external_id) = true := by
  induction outcomes with
  | nil => intro db s evs h; cases h
  | cons o rest ih =>
      intro db s evs hmem
      cases o with
      | failed =>
          cases hmem with
          | tail _ h => simpa only [Ingest.loop] using ih db s evs h
      | parsed s0 evs0 =>
          simp only [Ingest.loop]
          cases hins : Store.insert_session_with_events ok db s0 evs0 with
          | mk db1 b =>
              have hdb1 : db1.sessions =
                  Store.upsertSession db.sessions
                    (Store.sessionToParams s0) := by
                have hq := insert_session_with_events_sessions ok db s0 evs0
                rw [hins] at hq
                exact hq
              cases hmem with
              | head =>
                  have h1 : db1.sessions.any
                      (fun r => r.source == s.source.toStr &&
                        r.external_id == s.external_id) = true := by
                    rw [hdb1]
                    simpa [Store.sessionToParams] using
                      upsertSession_any_self db.sessions
                        (Store.sessionToParams s)
                  cases b
                  · exact ingest_loop_key_mono ok rest db1 _ _ h1
                  · exact ingest_loop_key_mono ok rest db1 _ _ h1
              | tail _ h =>
                  cases b
                  · exact ih db1 s evs h
                  · exact ih db1 s evs h

/-- Helper: with an all-accepting oracle, every event of every parsed
descriptor is persisted by the ingestion run. -/
theorem ingest_loop_parsed_events (outcomes : List Ingest.ParseOutcome) :
    ∀ (db : Store.Db) (s : Store.Session) (evs : List Store.Event),
      Ingest.ParseOutcome.parsed s evs ∈ outcomes →
      ∀ x ∈ evs, Store.eventToParams x ∈
        ((Ingest.loop (fun _ => true) db outcomes).1).events := by
  induction outcomes with
  | nil => intro db s evs h; cases h
  | cons o rest ih =>
      intro db s evs hmem x hx
      cases o with
      | failed =>
          cases hmem with
          | tail _ h => simpa only [Ingest.loop] using ih db s evs h x hx
      | parsed s0 evs0 =>
          simp only [Ingest.loop]
          have hins2 : Store.insert_session_with_events (fun _ => true) db s0
              evs0 =
              ({ sessions := Store.upsertSession db.sessions
                   (Store.sessionToParams s0),
                 events := db.events ++ evs0.map Store.eventToParams },
               true) := by
            rw [Store.insert_session_with_events]
            exact insertEventsLoop_ok_all evs0 (Store.insert_session db s0)
          rw [hins2]
          cases hmem with
          | head =>
              apply ingest_loop_events_mono
              simp only [List.mem_append, List.mem_map]
              exact Or.inr ⟨x, hx, rfl⟩
          | tail _ h =>
              exact ih _ s evs h x hx

/-- C9: an ingestion run over one source counts every discovered descriptor
as either imported or failed and reports total equal to imported plus
failed; every successfully parsed session has its natural key persisted in
the sessions table, and (with no storage failures) every event of a parsed
session is persisted in the events table. A per-item failure never aborts
the batch: the loop is total and the remaining descriptors are still
processed. -/
theorem c9_ingest_batch (ok : Store.EventRow → Bool) (db : Store.Db)
    (src : Source) (disc : List Ingest.ParseOutcome) :
    (Ingest.ingest_single_source ok db src disc).2.total =
      (Ingest.ingest_single_source ok db src disc).2.imported +
        (Ingest.ingest_single_source ok db src disc).2.failed ∧
    (Ingest.ingest_single_source ok db src disc).2.imported +
        (Ingest.ingest_single_source ok db src disc).2.failed =
      disc.length ∧
    (∀ (s : Store.Session) (evs : List Store.Event),
       Ingest.ParseOutcome.parsed s evs ∈ disc →
       ((Ingest.ingest_single_source ok db src disc).1).sessions.any
         (fun r => r.source == s.source.toStr &&
           r.external_id == s.external_id) = true) ∧
    (∀ (s : Store.Session) (evs : List Store.Event),
       Ingest.ParseOutcome.parsed s evs ∈ disc →
       ∀ x ∈ evs, Store.eventToParams x ∈
         (Ingest.ingest_single_source (fun _ => true) db src
           disc).1.events) := by
  refine ⟨rfl, ?_, ?_, ?_⟩
  · exact ingest_loop_counts ok disc db
  · intro s evs hmem
    exact ingest_loop_parsed_key ok disc db s evs hmem
  · intro s evs hmem x hx
    exact ingest_loop_parsed_events disc db s evs hmem x hx

/-- Witness for c9_ingest_batch: three discovered descriptors of which the
second fails to parse report imported 2, failed 1, total 3, and the two
parsed sessions with their event are persisted. -/
theorem c9_ingest_batch_witness :
    (Ingest.ingest_single_source (fun _ => true) ⟨[], []⟩ Source.claude
        [Ingest.ParseOutcome.parsed
           ⟨"idA", Source.claude, "extA", none, none, "cA", "uA", "rA"⟩
           [⟨"evA", "idA", EventKind.message, some Role.user, some "hi",
             "tA", "rwA"⟩],
         Ingest.ParseOutcome.failed,
         Ingest.ParseOutcome.parsed
           ⟨"idB", Source.claude, "extB", none, none, "cB", "uB", "rB"⟩
           []]).2 = ⟨2, 1, 3, "claude"⟩ ∧
    ((Ingest.ingest_single_source (fun _ => true) ⟨[], []⟩ Source.claude
        [Ingest.ParseOutcome.parsed
           ⟨"idA", Source.claude, "extA", none, none, "cA", "uA", "rA"⟩
           [⟨"evA", "idA", EventKind.message, some Role.user, some "hi",
             "tA", "rwA"⟩],
         Ingest.ParseOutcome.failed,
         Ingest.ParseOutcome.parsed
           ⟨"idB", Source.claude, "extB", none, none, "cB", "uB", "rB"⟩
           []]).1).sessions.any
      (fun r => r.source == "claude" && r.external_id == "extB") = true ∧
    Store.eventToParams
        ⟨"evA", "idA", EventKind.message, some Role.user, some "hi", "tA",
         "rwA"⟩ ∈
      ((Ingest.ingest_single_source (fun _ => true) ⟨[], []⟩ Source.claude
        [Ingest.ParseOutcome.parsed
           ⟨"idA", Source.claude, "extA", none, none, "cA", "uA", "rA"⟩
           [⟨"evA", "idA", EventKind.message, some Role.user, some "hi",
             "tA", "rwA"⟩],
         Ingest.ParseOutcome.failed,
         Ingest.ParseOutcome.parsed
           ⟨"idB", Source.claude, "extB", none, none, "cB", "uB", "rB"⟩
           []]).1).events := by
  refine ⟨by decide, ?_, ?_⟩
  · have h := (c9_ingest_batch (fun _ => true) ⟨[], []⟩ Source.claude
      [Ingest.ParseOutcome.parsed
         ⟨"idA", Source.claude, "extA", none, none, "cA", "uA", "rA"⟩
         [⟨"evA", "idA", EventKind.message, some Role.user, some "hi",
           "tA", "rwA"⟩],
       Ingest.ParseOutcome.failed,
       Ingest.ParseOutcome.parsed
         ⟨"idB", Source.claude, "extB", none, none, "cB", "uB", "rB"⟩
         []]).2.2.1
      ⟨"idB", Source.claude, "extB", none, none, "cB", "uB", "rB"⟩ []
      (by decide)
    simpa [Source.toStr] using h
  · exact (c9_ingest_batch (fun _ => true) ⟨[], []⟩ Source.claude
      [Ingest.ParseOutcome.parsed
         ⟨"idA", Source.claude, "extA", none, none, "cA", "uA", "rA"⟩
         [⟨"evA", "idA", EventKind.message, some Role.user, some "hi",
           "tA", "rwA"⟩],
       Ingest.ParseOutcome.failed,
       Ingest.ParseOutcome.parsed
         ⟨"idB", Source.claude, "extB", none, none, "cB", "uB", "rB"⟩
         []]).2.2.2
      ⟨"idA", Source.claude, "extA", none, none, "cA", "uA", "rA"⟩
      [⟨"evA", "idA", EventKind.message, some Role.user, some "hi", "tA",
        "rwA"⟩]
      (by decide)
      ⟨"evA", "idA", EventKind.message, some Role.user, some "hi", "tA",
       "rwA"⟩
      (by decide)

end AgentV
